import Mathlib

/-!
Shallow embedding of the `RangeIterator` ComfyUI node from
`src/nodes/nodes.py` (method `RangeIterator.range_iterator`).

Modelling conventions:

* Python integers are unbounded, so they are modelled as `Int`.
* The numeric values travelling through value lists may be fractional
  (`float(x)` on the parsed custom text), so values are modelled as `ℚ`.
  Finite decimal literals are parsed exactly; the binary rounding of
  Python floats onto 53-bit significands is not modelled (no claim
  depends on the rounded magnitudes).  What IS modelled exactly is the
  classification of each token that the control flow of lines 156-170
  depends on: a token `float()` rejects raises `ValueError` (caught at
  line 168); a token `float()` maps to `±inf` — the literals
  `inf`/`infinity` (case-insensitive, optional sign) and every finite
  literal of magnitude at least `2^1024 - 2^970`, the IEEE-754 overflow
  bound of `float()` — makes `int(x)` at line 164 raise `OverflowError`,
  which the `except ValueError` does NOT catch, so the whole call
  raises; a `nan` token makes `int(x)` at line 164 raise `ValueError`,
  which IS caught.  Line 164 scans left to right, so the first
  non-finite element decides between those two outcomes.  PEP 515
  underscores between digits are accepted as `float()` accepts them.
  Values whose magnitude is below `10^-400` underflow to `0.0` in
  `float()` and are modelled as `0`.  The surviving
  `int(x) if x == int(x) else x` normalisation of line 164 changes only
  the Python type of a finite value, never its numeric magnitude, so it
  is the identity in this model.
* `value_list[i]` is modelled by `listGet`, which succeeds exactly on
  the valid positions `0 ≤ i < len`.  (Python additionally aliases
  `-len ≤ i < 0` to positions counted from the end and raises
  `IndexError` otherwise; the concrete failing inputs exhibited below
  all use `i < -len`, where Python raises as well.)
* A call that raises is modelled as `none`; a completed call returns
  `some` of the `(current_value, next_value, cycle_completed)` triple
  together with the updated state.  (Python commits `self.current_index`
  just before the final lookup of `next_value`; a raising call therefore
  leaves partial state behind, which the `none` result abstracts away —
  all stateful claims below concern completed calls.)
* The change-detection fingerprint `hash(str(value_list))` of line 150
  is modelled by the list itself (an injective fingerprint).
* The state fields `self.prev_*` are assigned by lines 116-154 only when
  they differ from the incoming parameter, which is extensionally the
  same as always assigning the incoming parameter; `updateSnapshot`
  performs the unconditional assignment.
-/

/-- The `mode` combo input of the node: one of `cycle`, `bounce`, `once`
(line 51 of the source). -/
inductive Mode
  | cycle
  | bounce
  | once
deriving DecidableEq

/-- The per-invocation configuration of `range_iterator` (its parameters,
line 90): `start`, `end` (here `end_`), `step`, `reset_counter`,
`custom_values`, `mode`, and the optional `value_list`. -/
structure Config where
  custom_values : String
  mode : Mode
  start : Int
  end_ : Int
  step : Int
  reset_counter : Bool
  value_list : Option (List ℚ)

/-- The mutable instance state of the node (`__init__`, lines 73-88). -/
structure State where
  current_index : Option Int
  direction : Int
  cycle_completed : Bool
  prev_custom_values : String
  prev_start : Option Int
  prev_end : Option Int
  prev_step : Option Int
  prev_mode : Option Mode
  prev_value_list_hash : Option (List ℚ)
deriving DecidableEq

/-- The freshly constructed state (`__init__`): uninitialised index,
forward direction, empty snapshot. -/
def initState : State :=
  { current_index := none
    direction := 1
    cycle_completed := false
    prev_custom_values := ""
    prev_start := none
    prev_end := none
    prev_step := none
    prev_mode := none
    prev_value_list_hash := none }

/-- Whitespace characters removed by Python `str.strip()`:
space, tab, newline, carriage return, vertical tab, form feed. -/
def isSpace (c : Char) : Bool :=
  c = ' ' || c = '\t' || c = '\n' || c = '\r' || c = Char.ofNat 11 || c = Char.ofNat 12

/-- Drop leading whitespace from a character list. -/
def dropLeading : List Char → List Char
  | [] => []
  | c :: rest => if isSpace c then dropLeading rest else c :: rest

/-- Python `str.strip()`: drop leading and trailing whitespace. -/
def trimChars (cs : List Char) : List Char :=
  (dropLeading (dropLeading cs.reverse).reverse).reverse.reverse

/-- Python `str.split(',')` on the character level: split at every comma;
the result always has at least one (possibly empty) token. -/
def splitCommas : List Char → List (List Char)
  | [] => [[]]
  | c :: rest =>
    let r := splitCommas rest
    if c = ',' then [] :: r
    else
      match r with
      | [] => [[c]]
      | t :: ts => (c :: t) :: ts

/-- Numeric value of a list of decimal digits (underscores, already
validated to sit between digits, are skipped). -/
def digitsToNat (cs : List Char) : Nat :=
  cs.foldl (fun a c => if c = '_' then a else 10 * a + (c.toNat - 48)) 0

/-- Tail of a PEP 515 digit group: digits, with single underscores only
between digits (every underscore must be followed by a digit). -/
def digitsUAux : List Char → Bool
  | [] => true
  | c :: rest =>
    if c.isDigit then digitsUAux rest
    else if c = '_' then
      match rest with
      | [] => false
      | d :: _ => d.isDigit && digitsUAux rest
    else false

/-- A non-empty PEP 515 digit group as `float()` accepts it: starts with
a digit, single underscores only between digits. -/
def isDigitsU : List Char → Bool
  | [] => false
  | c :: rest => c.isDigit && digitsUAux rest

/-- Split a character list at the first character satisfying `p`,
returning the prefix and (when found) the remainder after the split
character. -/
def breakOn (p : Char → Bool) : List Char → List Char × Option (List Char)
  | [] => ([], none)
  | c :: rest =>
    if p c then ([], some rest)
    else
      let r := breakOn p rest
      (c :: r.1, r.2)

/-- Strip an optional leading sign, returning the sign and the rest. -/
def parseSign : List Char → Int × List Char
  | '-' :: rest => (-1, rest)
  | '+' :: rest => (1, rest)
  | cs => (1, cs)

/-- Mantissa of a Python float literal: the digit groups before and
after the decimal point, with PEP 515 underscores validated and then
removed (so the returned lists are pure digits and their lengths count
digits).  `digits`, `digits.`, `.digits` and `digits.digits` are
accepted, at least one digit overall; `none` models a `ValueError` from
`float()`. -/
def parseMantissaParts (cs : List Char) : Option (List Char × List Char) :=
  let r := breakOn (fun c => c = '.') cs
  match r.2 with
  | none =>
    if isDigitsU r.1 then some (r.1.filter (fun c => c ≠ '_'), []) else none
  | some frac =>
    if r.1.isEmpty && frac.isEmpty then none
    else if (r.1.isEmpty || isDigitsU r.1) && (frac.isEmpty || isDigitsU frac) then
      some (r.1.filter (fun c => c ≠ '_'), frac.filter (fun c => c ≠ '_'))
    else none

/-- The result of Python `float(token)` when it does not raise: a finite
value (modelled as an exact rational), an infinity (sign irrelevant:
`int(±inf)` raises `OverflowError` either way), or a NaN (`int(nan)`
raises `ValueError`). -/
inductive PyFloat
  | finite (q : ℚ)
  | inf
  | nan
deriving DecidableEq

/-- Magnitudes at least this large overflow `float()` to `±inf`: the
midpoint between the largest finite double `2^1024 - 2^971` and `2^1024`
(round-half-to-even sends the midpoint up). -/
def floatThresholdNat : Nat := 2 ^ 1024 - 2 ^ 970

/-- Value and classification of a sign/digit-parsed literal with integer
digits `intd`, fraction digits `fracd` and decimal exponent `e`: the
exact value is `n * 10 ^ (e - |fracd|)` with `n` the concatenated
digits.  Magnitudes at or above `floatThresholdNat` overflow to `inf`
(huge exponents decided without computing the power); magnitudes below
`10 ^ -400` underflow to `0.0` exactly as `float()` rounds them. -/
def classifyFloat (sign : Int) (intd fracd : List Char) (e : Int) : PyFloat :=
  let n : Nat := digitsToNat (intd ++ fracd)
  let ex : Int := e - (fracd.length : Int)
  if n = 0 then PyFloat.finite 0
  else if ex > 400 then PyFloat.inf
  else if ex < -400 - ((intd.length : Int) + (fracd.length : Int)) then
    PyFloat.finite 0
  else if 0 ≤ ex then
    let v : Nat := n * 10 ^ ex.toNat
    -- magnitudes below 10^255 are finite outright: the guard keeps the
    -- 309-digit threshold out of the comparison for ordinary literals
    let overflow : Bool :=
      if v < 10 ^ 255 then false else decide (floatThresholdNat ≤ v)
    if overflow then PyFloat.inf
    else PyFloat.finite (if sign = 1 then ((v : ℚ)) else -((v : ℚ)))
  else
    let q : ℚ := (n : ℚ) / (10 : ℚ) ^ (-ex).toNat
    let overflow : Bool :=
      if n < 10 ^ 255 then false else decide (((floatThresholdNat : ℚ)) ≤ q)
    if overflow then PyFloat.inf
    else PyFloat.finite (if sign = 1 then q else -q)

/-- Model of Python `float(token)`: optional sign, then the literals
`inf`/`infinity`/`nan` (case-insensitive) or a decimal mantissa with an
optional `e`/`E` exponent, PEP 515 underscores between digits.  `none`
models a `ValueError` (a token `float()` rejects). -/
def pyFloat? (cs : List Char) : Option PyFloat :=
  let r0 := parseSign cs
  let low := r0.2.map Char.toLower
  if low = "inf".data || low = "infinity".data then some PyFloat.inf
  else if low = "nan".data then some PyFloat.nan
  else
    let r1 := breakOn (fun c => c = 'e' || c = 'E') r0.2
    match parseMantissaParts r1.1, r1.2 with
    | none, _ => none
    | some md, none => some (classifyFloat r0.1 md.1 md.2 0)
    | some md, some ecs =>
      let r2 := parseSign ecs
      if isDigitsU r2.2 then
        some (classifyFloat r0.1 md.1 md.2 (r2.1 * (digitsToNat r2.2 : Int)))
      else none

/-- Fate of the custom-values parse of lines 156-170, including the fate
of the call it determines: `ok` — every element is finite, the parsed
numbers become the custom list and line 167 runs; `fallback` — a
`ValueError` was raised (non-numeric token at line 162, or a NaN at line
164's `int()`) and caught, so the parse is discarded; `crash` — an
infinite element reached line 164's `int()` first, whose
`OverflowError` is not caught by `except ValueError` and propagates out
of the whole call. -/
inductive ParseOutcome
  | ok (l : List ℚ)
  | fallback
  | crash
deriving DecidableEq

/-- Line 164's `int(x)` scan over the `float()`-parsed elements, left to
right: the first infinite element raises `OverflowError` (crash), the
first NaN raises `ValueError` (caught: fallback), all-finite succeeds. -/
def intConvertScan : List PyFloat → ParseOutcome
  | [] => ParseOutcome.ok []
  | PyFloat.finite q :: rest =>
    match intConvertScan rest with
    | ParseOutcome.ok l => ParseOutcome.ok (q :: l)
    | r => r
  | PyFloat.inf :: _ => ParseOutcome.crash
  | PyFloat.nan :: _ => ParseOutcome.fallback

/-- Lines 156-170: parse the comma-separated `custom_values` string.
The parse is attempted only when the string is truthy and its strip is
truthy (line 159).  Line 162 runs `float()` over all tokens first — any
rejected token is a caught `ValueError` (fallback) — and only then does
line 164 run `int()` over the parsed values, where the first non-finite
value decides between the uncaught `OverflowError` (crash) and a caught
`ValueError` (fallback). -/
def parseCustomValues (custom_values : String) : ParseOutcome :=
  if custom_values = "" then ParseOutcome.fallback
  else if trimChars custom_values.data = [] then ParseOutcome.fallback
  else
    match (splitCommas custom_values.data).mapM (fun x => pyFloat? (trimChars x)) with
    | none => ParseOutcome.fallback
    | some vs => intConvertScan vs

/-- The custom parse crashes the whole call (uncaught `OverflowError`
from line 164). -/
def parseCrashes (cfg : Config) : Bool :=
  match parseCustomValues cfg.custom_values with
  | ParseOutcome.crash => true
  | _ => false

/-- Lines 172-174: the successfully parsed custom list supersedes the
supplied `value_list`; on a recoverable parse failure the supplied list
stands.  (On a crash the call raises before this point; the value here
is never consumed.) -/
def activeList (cfg : Config) : Option (List ℚ) :=
  match parseCustomValues cfg.custom_values with
  | ParseOutcome.ok l => some l
  | _ => cfg.value_list

/-- Line 167: a successful parse overrides `end` to `len(custom_list)-1`;
otherwise `end` is the supplied parameter. -/
def effEnd (cfg : Config) : Int :=
  match parseCustomValues cfg.custom_values with
  | ParseOutcome.ok l => (l.length : Int) - 1
  | _ => cfg.end_

/-- Lines 116-154: the reset flag — `reset_counter`, or any difference
between a monitored parameter and its stored snapshot (the `value_list`
fingerprint is compared only when a `value_list` is supplied). -/
def detectReset (cfg : Config) (s : State) : Bool :=
  cfg.reset_counter
  || decide (cfg.custom_values ≠ s.prev_custom_values)
  || decide (some cfg.start ≠ s.prev_start)
  || decide (some cfg.end_ ≠ s.prev_end)
  || decide (some cfg.step ≠ s.prev_step)
  || decide (some cfg.mode ≠ s.prev_mode)
  || (match cfg.value_list with
      | none => false
      | some l => decide (some l ≠ s.prev_value_list_hash))

/-- Lines 116-154, snapshot side: each `prev_*` field ends the call equal
to the incoming parameter (the fingerprint only when a list is supplied). -/
def updateSnapshot (cfg : Config) (s : State) : State :=
  { s with
    prev_custom_values := cfg.custom_values
    prev_start := some cfg.start
    prev_end := some cfg.end_
    prev_step := some cfg.step
    prev_mode := some cfg.mode
    prev_value_list_hash :=
      match cfg.value_list with
      | none => s.prev_value_list_hash
      | some l => some l }

/-- Lines 179-184: the index the call starts from — `start` when the
stored index is unset or a reset triggered, the stored index otherwise. -/
def initIndex (cfg : Config) (s : State) : Int :=
  if s.current_index.isNone || detectReset cfg s then cfg.start
  else s.current_index.getD cfg.start

/-- Lines 179-184, direction: `1` after initialisation or reset, the
stored direction otherwise. -/
def initDir (cfg : Config) (s : State) : Int :=
  if s.current_index.isNone || detectReset cfg s then 1
  else s.direction

/-- Lines 186-190: when a list is active, the starting index is clamped
down to the last valid list position. -/
def preIndex (cfg : Config) (s : State) : Int :=
  let i := initIndex cfg s
  match activeList cfg with
  | some l =>
    if 0 < l.length then
      if i > (l.length : Int) - 1 then (l.length : Int) - 1 else i
    else i
  | none => i

/-- Python `value_list[i]` restricted to the valid positions
`0 ≤ i < len`; `none` models an out-of-range read. -/
def listGet (l : List ℚ) (i : Int) : Option ℚ :=
  if 0 ≤ i then l.get? i.toNat else none

/-- Lines 203-270, list branches: next index, new direction, and the
completion flag for one step over a list of length `len`. -/
def nextList (mode : Mode) (current_index direction step : Int) (len : Nat) :
    Int × Int × Bool :=
  let list_end : Int := (len : Int) - 1
  match mode with
  | .cycle =>
    let next_index := current_index + step * direction
    if next_index > list_end then (next_index % (len : Int), direction, true)
    else (next_index, direction, false)
  | .bounce =>
    let next_index := current_index + step * direction
    if next_index > list_end then (list_end - (next_index - list_end), -1, false)
    else if next_index < 0 then (0 + (0 - next_index), 1, true)
    else (next_index, direction, false)
  | .once =>
    let next_index := current_index + step
    if next_index > list_end then (list_end, direction, true)
    else (next_index, direction, false)

/-- Lines 203-270, range branches: next index, new direction, and the
completion flag for one step over the plain numeric range. -/
def nextRange (mode : Mode) (current_index direction step start end_ : Int) :
    Int × Int × Bool :=
  match mode with
  | .cycle =>
    let next_index := current_index + step * direction
    if next_index > end_ then (start, direction, true)
    else (next_index, direction, false)
  | .bounce =>
    let next_index := current_index + step * direction
    if next_index > end_ then (end_ - (next_index - end_), -1, false)
    else if next_index < start then (start + (start - next_index), 1, true)
    else (next_index, direction, false)
  | .once =>
    let next_index := current_index + step
    if next_index > end_ then (end_, direction, true)
    else (next_index, direction, false)

/-- Range-mode tail of the call (lines 195-285 with `using_list` false):
current value is the index itself, the stepped index is committed, and
the next value is the stepped index itself.  Never fails. -/
def rangeResult (cfg : Config) (i d : Int) (self : State) :
    (ℚ × ℚ × Bool) × State :=
  let r := nextRange cfg.mode i d cfg.step cfg.start (effEnd cfg)
  (((i : ℚ), (r.1 : ℚ), r.2.2),
   { self with
     current_index := some r.1
     direction := r.2.1
     cycle_completed := r.2.2 })

/-- The instance state as it stands after the snapshot update and the
initialisation/reset block (lines 116-190), before the mode step commits
the next index: index at the (clamped) starting position, direction and
completion flag reset when a reset fired. -/
def midState (cfg : Config) (self : State) : State :=
  { updateSnapshot cfg self with
    current_index := some (preIndex cfg self)
    direction := initDir cfg self
    cycle_completed :=
      if self.current_index.isNone || detectReset cfg self then false
      else self.cycle_completed }

/-- The full advance operation `RangeIterator.range_iterator`
(lines 90-285): change detection, snapshot update, custom-values parse
(whose uncaught `OverflowError` aborts the call — modelled as `none`),
source resolution, initialisation/reset, clamp, current-value read,
mode step, state commit and next-value read. -/
def range_iterator (cfg : Config) (self : State) :
    Option ((ℚ × ℚ × Bool) × State) :=
  if parseCrashes cfg then none
  else
  let i := preIndex cfg self
  let d := initDir cfg self
  let self2 : State := midState cfg self
  match activeList cfg with
  | some l =>
    if 0 < l.length then
      match listGet l i with
      | none => none
      | some current_value =>
        let r := nextList cfg.mode i d cfg.step l.length
        match listGet l r.1 with
        | none => none
        | some next_value =>
          some ((current_value, next_value, r.2.2),
            { self2 with
              current_index := some r.1
              direction := r.2.1
              cycle_completed := r.2.2 })
    else some (rangeResult cfg i d self2)
  | none => some (rangeResult cfg i d self2)

/-- Iterate `range_iterator` with a fixed configuration, collecting the
returned triples in call order; `none` as soon as one call fails. -/
def runCalls (cfg : Config) : Nat → State → Option (List (ℚ × ℚ × Bool) × State)
  | 0, s => some ([], s)
  | n + 1, s =>
    match range_iterator cfg s with
    | none => none
    | some (out, s1) => (runCalls cfg n s1).map (fun r => (out :: r.1, r.2))

/-- Value lookup (lines 195-200): the list element at the index when a
list is active, the index itself otherwise. -/
def valueAt (cfg : Config) (i : Int) : Option ℚ :=
  match activeList cfg with
  | some l => if 0 < l.length then listGet l i else some ((i : ℚ))
  | none => some ((i : ℚ))

/-- Modelled from the spec: the bounce-mode step rule of the table in
section 4.1, for lower bound `L` and upper bound `U` — candidate
`i + s·d`; above `U`: direction `-1`, reflect to `U - (candidate - U)`,
no completion; below `L` (when not above `U`): direction `+1`, reflect
to `L + (L - candidate)`, completion; otherwise move to the candidate. -/
def bounceStepSpec (i d s L U : Int) : Int × Int × Bool :=
  let candidate := i + s * d
  if candidate > U then (U - (candidate - U), -1, false)
  else if candidate < L then (L + (L - candidate), 1, true)
  else (candidate, d, false)

/-! ### Concrete configurations and states used in the theorems below -/

/-- Cycle over the plain range `[0, 10]` with `step = 1`. -/
def cfgCycle : Config :=
  { custom_values := "", mode := Mode.cycle, start := 0, end_ := 10,
    step := 1, reset_counter := false, value_list := none }

/-- Once mode over the plain range `[0, 3]` with `step = 1`. -/
def cfgOnce : Config :=
  { custom_values := "", mode := Mode.once, start := 0, end_ := 3,
    step := 1, reset_counter := false, value_list := none }

/-- The steady state of `cfgOnce` after the index has reached `3`. -/
def stateOnce : State :=
  { current_index := some 3, direction := 1, cycle_completed := false,
    prev_custom_values := "", prev_start := some 0, prev_end := some 3,
    prev_step := some 1, prev_mode := some Mode.once,
    prev_value_list_hash := none }

/-- The state committed by the first `cfgCycle` call on a fresh instance. -/
def stateAfterOne : State :=
  { current_index := some 1, direction := 1, cycle_completed := false,
    prev_custom_values := "", prev_start := some 0, prev_end := some 10,
    prev_step := some 1, prev_mode := some Mode.cycle,
    prev_value_list_hash := none }

theorem range_iterator_range (cfg : Config) (s : State)
    (hcr : parseCrashes cfg = false) (hal : activeList cfg = none) :
    range_iterator cfg s =
      some (rangeResult cfg (preIndex cfg s) (initDir cfg s) (midState cfg s)) := by
  simp only [range_iterator, hcr, Bool.false_eq_true, if_false, hal]

theorem range_iterator_nil (cfg : Config) (s : State) (l : List ℚ)
    (hcr : parseCrashes cfg = false)
    (hal : activeList cfg = some l) (hlen : ¬ 0 < l.length) :
    range_iterator cfg s =
      some (rangeResult cfg (preIndex cfg s) (initDir cfg s) (midState cfg s)) := by
  simp only [range_iterator, hcr, Bool.false_eq_true, if_false, hal, if_neg hlen]

theorem range_iterator_list (cfg : Config) (s : State) (l : List ℚ)
    (hcr : parseCrashes cfg = false)
    (hal : activeList cfg = some l) (hlen : 0 < l.length) :
    range_iterator cfg s =
      match listGet l (preIndex cfg s) with
      | none => none
      | some current_value =>
        match listGet l
            (nextList cfg.mode (preIndex cfg s) (initDir cfg s) cfg.step l.length).1 with
        | none => none
        | some next_value =>
          some ((current_value, next_value,
              (nextList cfg.mode (preIndex cfg s) (initDir cfg s) cfg.step l.length).2.2),
            { midState cfg s with
              current_index :=
                some (nextList cfg.mode (preIndex cfg s) (initDir cfg s) cfg.step l.length).1
              direction :=
                (nextList cfg.mode (preIndex cfg s) (initDir cfg s) cfg.step l.length).2.1
              cycle_completed :=
                (nextList cfg.mode (preIndex cfg s) (initDir cfg s) cfg.step l.length).2.2 }) := by
  simp only [range_iterator, hcr, Bool.false_eq_true, if_false, hal, if_pos hlen]

theorem rangeResult_fst (cfg : Config) (i d : Int) (st : State) :
    (rangeResult cfg i d st).1 =
      ((i : ℚ), ((nextRange cfg.mode i d cfg.step cfg.start (effEnd cfg)).1 : ℚ),
        (nextRange cfg.mode i d cfg.step cfg.start (effEnd cfg)).2.2) := rfl

theorem rangeResult_index (cfg : Config) (i d : Int) (st : State) :
    (rangeResult cfg i d st).2.current_index =
      some (nextRange cfg.mode i d cfg.step cfg.start (effEnd cfg)).1 := rfl

theorem rangeResult_dir (cfg : Config) (i d : Int) (st : State) :
    (rangeResult cfg i d st).2.direction =
      (nextRange cfg.mode i d cfg.step cfg.start (effEnd cfg)).2.1 := rfl

theorem once_hold_step (s : State)
    (hidx : s.current_index = some 3)
    (h1 : s.prev_custom_values = "") (h2 : s.prev_start = some 0)
    (h3 : s.prev_end = some 3) (h4 : s.prev_step = some 1)
    (h5 : s.prev_mode = some Mode.once) :
    ∃ s', range_iterator cfgOnce s = some (((3 : ℚ), (3 : ℚ), true), s') ∧
      s'.current_index = some 3 ∧ s'.prev_custom_values = "" ∧
      s'.prev_start = some 0 ∧ s'.prev_end = some 3 ∧
      s'.prev_step = some 1 ∧ s'.prev_mode = some Mode.once := by
  have hdr : detectReset cfgOnce s = false := by
    simp [detectReset, cfgOnce, h1, h2, h3, h4, h5]
  have hii : initIndex cfgOnce s = 3 := by
    simp [initIndex, hidx, hdr]
  have hal : activeList cfgOnce = none := rfl
  have hcr7 : parseCrashes cfgOnce = false := rfl
  have hpi : preIndex cfgOnce s = 3 := by
    simp only [preIndex, hal]
    exact hii
  have hnr : nextRange cfgOnce.mode 3 (initDir cfgOnce s) cfgOnce.step
      cfgOnce.start (effEnd cfgOnce) = (3, initDir cfgOnce s, true) := by
    show nextRange Mode.once 3 (initDir cfgOnce s) 1 0 3 = (3, initDir cfgOnce s, true)
    simp [nextRange]
  have hres : range_iterator cfgOnce s =
      some (((3 : ℚ), (3 : ℚ), true),
        { midState cfgOnce s with
          current_index := some 3
          direction := initDir cfgOnce s
          cycle_completed := true }) := by
    rw [range_iterator_range cfgOnce s hcr7 hal, hpi]
    unfold rangeResult
    rw [hnr]
    norm_num
  exact ⟨_, hres, rfl, rfl, rfl, rfl, rfl, rfl⟩

/-! ### Claims -/

/-- C3: the bounce-mode step (both the list branch and the range branch
of lines 222-251) computes exactly the spec's bounce table
`bounceStepSpec` — above `U`: direction `-1`, reflect to
`U - (candidate - U)`, no completion; below `L` (the case dispatched
when the candidate is not above `U`, as in the table): direction `+1`,
reflect to `L + (L - candidate)`, completion — and the completion flag
equals "candidate not above `U` and below `L`", so it is never true on a
high-bound rebound. -/
theorem claim3_bounce (i d st start_ e : Int) (len : Nat) :
    nextRange Mode.bounce i d st start_ e = bounceStepSpec i d st start_ e ∧
    nextList Mode.bounce i d st len = bounceStepSpec i d st 0 ((len : Int) - 1) ∧
    ((bounceStepSpec i d st start_ e).2.2 =
      (decide (i + st * d ≤ e) && decide (i + st * d < start_))) := by
  refine ⟨rfl, rfl, ?_⟩
  simp only [bounceStepSpec]
  split
  · rename_i h
    have h1 : ¬ (i + st * d ≤ e) := by omega
    simp [h1]
  · rename_i h
    split
    · rename_i h2
      have h1 : i + st * d ≤ e := by omega
      simp [h1, h2]
    · rename_i h2
      simp [h2]

/-- C3 (witness): the characterisation applied at concrete inputs — a
high-bound rebound (candidate `3 > e = 1`, reflected to `-1`, completion
false) and a low-bound rebound (candidate `-2 < start = 0`, reflected to
`2`, completion true). -/
theorem claim3_witness :
    nextRange Mode.bounce 0 1 3 0 1 = (-1, -1, false) ∧
    nextRange Mode.bounce 1 (-1) 3 0 5 = (2, 1, true) := by
  have h1 := (claim3_bounce 0 1 3 0 1 2).1
  have h2 := (claim3_bounce 1 (-1) 3 0 5 2).1
  rw [h1, h2]
  constructor <;> decide

/-- C5: with `start = 0`, `end = 10`, `step = 1`, cycle mode, no custom
values and no value list, from a fresh cursor: the 11 calls report
completion exactly once, on the wrapping 11th call, the stored index is
then back at `0`, and the 12th call's current output is `0` (the full
current trace being `0,1,...,10,0`). -/
theorem claim5_cycle_wrap :
    (runCalls cfgCycle 11 initState).map
        (fun r => (r.1.map (fun t => t.2.2), r.2.current_index)) =
      some ([false, false, false, false, false, false, false, false, false,
        false, true], some 0) ∧
    (runCalls cfgCycle 12 initState).map (fun r => r.1.map (fun t => t.1)) =
      some [0, 1, 2, 3, 4, 5, 6, 7, 8, 9, 10, 0] := by decide

/-- C7: with `start = 0`, `end = 3`, `step = 1`, once mode, no custom
values and no value list — from any state whose stored index has reached
`3` (snapshot matching, so no reset fires), every subsequent call, for
any number of calls, returns `current = 3`, `next = 3`,
`cycle_completed = true` and leaves the stored index at `3`. -/
theorem claim7_once_holds (n : Nat) (s : State)
    (hidx : s.current_index = some 3)
    (h1 : s.prev_custom_values = "") (h2 : s.prev_start = some 0)
    (h3 : s.prev_end = some 3) (h4 : s.prev_step = some 1)
    (h5 : s.prev_mode = some Mode.once) :
    (runCalls cfgOnce n s).map (fun r => r.1) =
      some (List.replicate n ((3 : ℚ), (3 : ℚ), true)) ∧
    ∀ r, runCalls cfgOnce n s = some r → r.2.current_index = some 3 := by
  induction n generalizing s with
  | zero =>
    refine ⟨rfl, ?_⟩
    intro r hr
    have hr' : some (([] : List (ℚ × ℚ × Bool)), s) = some r := hr
    cases hr'
    exact hidx
  | succ n ih =>
    obtain ⟨s', hres, hi', hp1, hp2, hp3, hp4, hp5⟩ :=
      once_hold_step s hidx h1 h2 h3 h4 h5
    have hih := ih s' hi' hp1 hp2 hp3 hp4 hp5
    obtain ⟨outs, s2, hrc⟩ :
        ∃ outs s2, runCalls cfgOnce n s' = some (outs, s2) := by
      cases hrc : runCalls cfgOnce n s' with
      | none =>
        exfalso
        have hx := hih.1
        rw [hrc] at hx
        simp at hx
      | some r => exact ⟨r.1, r.2, rfl⟩
    have houts : outs = List.replicate n ((3 : ℚ), (3 : ℚ), true) := by
      have hx := hih.1
      rw [hrc] at hx
      simpa using hx
    have hs2 : s2.current_index = some 3 := hih.2 (outs, s2) hrc
    constructor
    · show (runCalls cfgOnce (n + 1) s).map (fun r => r.1) = _
      simp only [runCalls, hres, hrc, Option.map_some']
      rw [houts]
      rfl
    · intro r hr
      simp only [runCalls, hres, hrc, Option.map_some'] at hr
      have hr' : some ((((3 : ℚ), (3 : ℚ), true) :: outs), s2) = some r := hr
      cases hr'
      exact hs2

/-- C7 (witness): three further calls from the steady state `stateOnce`
each return `(3, 3, true)`. -/
theorem claim7_witness :
    (runCalls cfgOnce 3 stateOnce).map (fun r => r.1) =
      some (List.replicate 3 ((3 : ℚ), (3 : ℚ), true)) :=
  (claim7_once_holds 3 stateOnce rfl rfl rfl rfl rfl rfl).1

/-- C9: for every completed call, the current output is the value at the
pre-step index (the list element there when a list is active, the index
itself otherwise), the next output is the value at the committed index,
the stored index committed to state is exactly that next index (so the
following call treats it as current), and on the first call or after a
reset the pre-step index starts from `start`. -/
theorem claim9_dataflow (cfg : Config) (s : State) (cur nxt : ℚ) (cc : Bool)
    (s' : State)
    (h : range_iterator cfg s = some ((cur, nxt, cc), s')) :
    valueAt cfg (preIndex cfg s) = some cur ∧
    (∃ j, s'.current_index = some j ∧ valueAt cfg j = some nxt) ∧
    ((s.current_index = none ∨ detectReset cfg s = true) →
      initIndex cfg s = cfg.start) := by
  have hreset : (s.current_index = none ∨ detectReset cfg s = true) →
      initIndex cfg s = cfg.start := by
    intro hor
    unfold initIndex
    rcases hor with h1 | h1
    · rw [h1]
      simp
    · rw [h1]
      simp
  have hcr : parseCrashes cfg = false := by
    cases hcb : parseCrashes cfg with
    | false => rfl
    | true =>
      exfalso
      unfold range_iterator at h
      rw [hcb] at h
      simp at h
  cases hal : activeList cfg with
  | none =>
    rw [range_iterator_range cfg s hcr hal] at h
    injection h with h'
    have h1 : (rangeResult cfg (preIndex cfg s) (initDir cfg s)
        (midState cfg s)).1 = (cur, nxt, cc) := by rw [h']
    have h2 : (rangeResult cfg (preIndex cfg s) (initDir cfg s)
        (midState cfg s)).2 = s' := by rw [h']
    rw [rangeResult_fst] at h1
    simp only [Prod.mk.injEq] at h1
    obtain ⟨hcur, hnxt, hcc⟩ := h1
    refine ⟨?_, ?_, hreset⟩
    · unfold valueAt
      rw [hal, hcur]
    · refine ⟨(nextRange cfg.mode (preIndex cfg s) (initDir cfg s) cfg.step
        cfg.start (effEnd cfg)).1, ?_, ?_⟩
      · rw [← h2, rangeResult_index]
      · unfold valueAt
        rw [hal, hnxt]
  | some l =>
    by_cases hlen : 0 < l.length
    · rw [range_iterator_list cfg s l hcr hal hlen] at h
      cases hv : listGet l (preIndex cfg s) with
      | none =>
        rw [hv] at h
        cases h
      | some v =>
        rw [hv] at h
        simp only at h
        cases hv2 : listGet l (nextList cfg.mode (preIndex cfg s)
            (initDir cfg s) cfg.step l.length).1 with
        | none =>
          rw [hv2] at h
          cases h
        | some v2 =>
          rw [hv2] at h
          simp only [Option.some.injEq, Prod.mk.injEq] at h
          obtain ⟨⟨hcur, hnxt, hcc⟩, hs'⟩ := h
          refine ⟨?_, ?_, hreset⟩
          · simp only [valueAt, hal]
            rw [if_pos hlen, hv, hcur]
          · refine ⟨(nextList cfg.mode (preIndex cfg s) (initDir cfg s)
              cfg.step l.length).1, ?_, ?_⟩
            · rw [← hs']
            · simp only [valueAt, hal]
              rw [if_pos hlen, hv2, hnxt]
    · rw [range_iterator_nil cfg s l hcr hal hlen] at h
      injection h with h'
      have h1 : (rangeResult cfg (preIndex cfg s) (initDir cfg s)
          (midState cfg s)).1 = (cur, nxt, cc) := by rw [h']
      have h2 : (rangeResult cfg (preIndex cfg s) (initDir cfg s)
          (midState cfg s)).2 = s' := by rw [h']
      rw [rangeResult_fst] at h1
      simp only [Prod.mk.injEq] at h1
      obtain ⟨hcur, hnxt, hcc⟩ := h1
      refine ⟨?_, ?_, hreset⟩
      · simp only [valueAt, hal]
        rw [if_neg hlen, hcur]
      · refine ⟨(nextRange cfg.mode (preIndex cfg s) (initDir cfg s) cfg.step
          cfg.start (effEnd cfg)).1, ?_, ?_⟩
        · rw [← h2, rangeResult_index]
        · simp only [valueAt, hal]
          rw [if_neg hlen, hnxt]

/-- C9 (witness): the first `cfgCycle` call on a fresh cursor returns
`(0, 1, false)` and commits index `1`: current is the value at the
pre-step index `0 = start`, next is the value at the committed index. -/
theorem claim9_witness :
    valueAt cfgCycle (preIndex cfgCycle initState) = some 0 ∧
    (∃ j, stateAfterOne.current_index = some j ∧
      valueAt cfgCycle j = some 1) ∧
    ((initState.current_index = none ∨ detectReset cfgCycle initState = true) →
      initIndex cfgCycle initState = cfgCycle.start) :=
  claim9_dataflow cfgCycle initState 0 1 false stateAfterOne (by decide)

